import Mathlib

/-!
Verification of the notes frontend: a shallow embedding of the state
controller in App.js and of the HTTP client in apiClient.js, together with
theorems about the behaviour documented in the specification.

JavaScript values are embedded as the inductive type JVal (with distinct
null and undefined), note records and collection entries are JVal objects,
and the asynchronous API calls are embedded by passing each operation the
settled outcome of the network request it performs.
-/

/-- JavaScript runtime values, as needed by the notes app. -/
inductive JVal where
  | jnull
  | jundef
  | jbool (b : Bool)
  | jnum (n : Int)
  | jstr (s : String)
  | jarr (elems : List JVal)
  | jobj (fields : List (String × JVal))

open JVal

mutual

def JVal.beq : JVal → JVal → Bool
  | .jnull, .jnull => true
  | .jundef, .jundef => true
  | .jbool a, .jbool b => a == b
  | .jnum a, .jnum b => a == b
  | .jstr a, .jstr b => a == b
  | .jarr a, .jarr b => JVal.beqList a b
  | .jobj a, .jobj b => JVal.beqFields a b
  | _, _ => false

def JVal.beqList : List JVal → List JVal → Bool
  | [], [] => true
  | x :: xs, y :: ys => JVal.beq x y && JVal.beqList xs ys
  | _, _ => false

def JVal.beqFields : List (String × JVal) → List (String × JVal) → Bool
  | [], [] => true
  | (k₁, v₁) :: xs, (k₂, v₂) :: ys => k₁ == k₂ && JVal.beq v₁ v₂ && JVal.beqFields xs ys
  | _, _ => false

end

mutual

def JVal.eq_of_beq : ∀ {a b : JVal}, JVal.beq a b = true → a = b
  | .jnull, .jnull, _ => rfl
  | .jundef, .jundef, _ => rfl
  | .jbool _, .jbool _, h => by simpa [JVal.beq] using h
  | .jnum _, .jnum _, h => by simpa [JVal.beq] using h
  | .jstr _, .jstr _, h => by simpa [JVal.beq] using h
  | .jarr a, .jarr b, h => congrArg JVal.jarr (JVal.eqList_of_beq (by simpa [JVal.beq] using h))
  | .jobj a, .jobj b, h => congrArg JVal.jobj (JVal.eqFields_of_beq (by simpa [JVal.beq] using h))
  | .jnull, .jundef, h => by simp [JVal.beq] at h
  | .jnull, .jbool _, h => by simp [JVal.beq] at h
  | .jnull, .jnum _, h => by simp [JVal.beq] at h
  | .jnull, .jstr _, h => by simp [JVal.beq] at h
  | .jnull, .jarr _, h => by simp [JVal.beq] at h
  | .jnull, .jobj _, h => by simp [JVal.beq] at h
  | .jundef, .jnull, h => by simp [JVal.beq] at h
  | .jundef, .jbool _, h => by simp [JVal.beq] at h
  | .jundef, .jnum _, h => by simp [JVal.beq] at h
  | .jundef, .jstr _, h => by simp [JVal.beq] at h
  | .jundef, .jarr _, h => by simp [JVal.beq] at h
  | .jundef, .jobj _, h => by simp [JVal.beq] at h
  | .jbool _, .jnull, h => by simp [JVal.beq] at h
  | .jbool _, .jundef, h => by simp [JVal.beq] at h
  | .jbool _, .jnum _, h => by simp [JVal.beq] at h
  | .jbool _, .jstr _, h => by simp [JVal.beq] at h
  | .jbool _, .jarr _, h => by simp [JVal.beq] at h
  | .jbool _, .jobj _, h => by simp [JVal.beq] at h
  | .jnum _, .jnull, h => by simp [JVal.beq] at h
  | .jnum _, .jundef, h => by simp [JVal.beq] at h
  | .jnum _, .jbool _, h => by simp [JVal.beq] at h
  | .jnum _, .jstr _, h => by simp [JVal.beq] at h
  | .jnum _, .jarr _, h => by simp [JVal.beq] at h
  | .jnum _, .jobj _, h => by simp [JVal.beq] at h
  | .jstr _, .jnull, h => by simp [JVal.beq] at h
  | .jstr _, .jundef, h => by simp [JVal.beq] at h
  | .jstr _, .jbool _, h => by simp [JVal.beq] at h
  | .jstr _, .jnum _, h => by simp [JVal.beq] at h
  | .jstr _, .jarr _, h => by simp [JVal.beq] at h
  | .jstr _, .jobj _, h => by simp [JVal.beq] at h
  | .jarr _, .jnull, h => by simp [JVal.beq] at h
  | .jarr _, .jundef, h => by simp [JVal.beq] at h
  | .jarr _, .jbool _, h => by simp [JVal.beq] at h
  | .jarr _, .jnum _, h => by simp [JVal.beq] at h
  | .jarr _, .jstr _, h => by simp [JVal.beq] at h
  | .jarr _, .jobj _, h => by simp [JVal.beq] at h
  | .jobj _, .jnull, h => by simp [JVal.beq] at h
  | .jobj _, .jundef, h => by simp [JVal.beq] at h
  | .jobj _, .jbool _, h => by simp [JVal.beq] at h
  | .jobj _, .jnum _, h => by simp [JVal.beq] at h
  | .jobj _, .jstr _, h => by simp [JVal.beq] at h
  | .jobj _, .jarr _, h => by simp [JVal.beq] at h

def JVal.eqList_of_beq : ∀ {a b : List JVal}, JVal.beqList a b = true → a = b
  | [], [], _ => rfl
  | x :: xs, y :: ys, h => by
    have h' := h
    simp only [JVal.beqList, Bool.and_eq_true] at h'
    rw [JVal.eq_of_beq h'.1, JVal.eqList_of_beq h'.2]
  | [], _ :: _, h => by simp [JVal.beqList] at h
  | _ :: _, [], h => by simp [JVal.beqList] at h

def JVal.eqFields_of_beq : ∀ {a b : List (String × JVal)}, JVal.beqFields a b = true → a = b
  | [], [], _ => rfl
  | (k₁, v₁) :: xs, (k₂, v₂) :: ys, h => by
    have h' := h
    simp only [JVal.beqFields, Bool.and_eq_true, beq_iff_eq] at h'
    rw [h'.1.1, JVal.eq_of_beq h'.1.2, JVal.eqFields_of_beq h'.2]
  | [], _ :: _, h => by simp [JVal.beqFields] at h
  | _ :: _, [], h => by simp [JVal.beqFields] at h

end

mutual

def JVal.beq_refl : ∀ (a : JVal), JVal.beq a a = true
  | .jnull => rfl
  | .jundef => rfl
  | .jbool _ => by simp [JVal.beq]
  | .jnum _ => by simp [JVal.beq]
  | .jstr _ => by simp [JVal.beq]
  | .jarr a => by simpa [JVal.beq] using JVal.beqList_refl a
  | .jobj a => by simpa [JVal.beq] using JVal.beqFields_refl a

def JVal.beqList_refl : ∀ (a : List JVal), JVal.beqList a a = true
  | [] => rfl
  | x :: xs => by simp [JVal.beqList, JVal.beq_refl x, JVal.beqList_refl xs]

def JVal.beqFields_refl : ∀ (a : List (String × JVal)), JVal.beqFields a a = true
  | [] => rfl
  | (k, v) :: xs => by simp [JVal.beqFields, JVal.beq_refl v, JVal.beqFields_refl xs]

end

instance : DecidableEq JVal := fun a b =>
  if h : JVal.beq a b = true then .isTrue (JVal.eq_of_beq h)
  else .isFalse (fun he => h (he ▸ JVal.beq_refl a))

/-- Nullish test: true exactly on null and undefined. -/
def isNullish : JVal → Bool
  | .jnull => true
  | .jundef => true
  | _ => false

/-- JavaScript truthiness. -/
def truthy : JVal → Bool
  | .jnull => false
  | .jundef => false
  | .jbool b => b
  | .jnum n => n != 0
  | .jstr s => s != ""
  | .jarr _ => true
  | .jobj _ => true

/-- Nullish coalescing, the binary operator written as two question marks. -/
def jnullish (a b : JVal) : JVal := if isNullish a then b else a

/-- Logical or on values (first operand when truthy, otherwise the second). -/
def jsOr (a b : JVal) : JVal := if truthy a then a else b

/-- Property access with optional chaining: undefined on non-objects and
missing keys, the stored value otherwise. -/
def jget (v : JVal) (k : String) : JVal :=
  match v with
  | .jobj fields => match fields.lookup k with | some w => w | none => .jundef
  | _ => .jundef

mutual

/-- Models JavaScript string coercion of a value. -/
def jsToString : JVal → String
  | .jnull => "null"
  | .jundef => "undefined"
  | .jbool true => "true"
  | .jbool false => "false"
  | .jnum n => toString n
  | .jstr s => s
  | .jobj _ => "[object Object]"
  | .jarr xs => jsToStringList xs

/-- Array-to-string coercion: elements joined by commas, with null and
undefined elements rendered as empty strings. -/
def jsToStringList : List JVal → String
  | [] => ""
  | x :: rest =>
    let hd := match x with
      | .jnull => ""
      | .jundef => ""
      | v => jsToString v
    match rest with
    | [] => hd
    | _ :: _ => hd ++ "," ++ jsToStringList rest

end

/-- App.js normalizeNote (lines 11 to 21): pick the id from the recognized
aliases, default title and content to empty strings, timestamps to null. -/
def normalizeNote (raw : JVal) : JVal :=
  .jobj [
    ("id", jnullish (jget raw "id")
      (jnullish (jget raw "_id") (jnullish (jget raw "noteId") (jget raw "uuid")))),
    ("title", jnullish (jget raw "title") (.jstr "")),
    ("content", jnullish (jget raw "content") (.jstr "")),
    ("createdAt", jnullish (jget raw "createdAt") (jnullish (jget raw "created_at") .jnull)),
    ("updatedAt", jnullish (jget raw "updatedAt") (jnullish (jget raw "updated_at") .jnull))]

/-- The identifier alias chain inside normalizeNote. -/
def idAliasChain (raw : JVal) : JVal :=
  jnullish (jget raw "id")
    (jnullish (jget raw "_id") (jnullish (jget raw "noteId") (jget raw "uuid")))

/-- The recognized identifier aliases, in the order the code consults them. -/
def idAliases : List String := ["id", "_id", "noteId", "uuid"]

/-! ### Timestamps and the sorted view (App.js sortedNotes, lines 59 to 69) -/

/-- Digits of a decimal numeral string as a natural number. -/
def digitsToNat (s : String) : Nat := s.foldl (fun n c => n * 10 + (c.toNat - 48)) 0

def isLeapYear (y : Int) : Bool := (y % 4 == 0 && y % 100 != 0) || (y % 400 == 0)

def daysInMonth (y : Int) (m : Nat) : Nat :=
  match m with
  | 1 => 31
  | 2 => if isLeapYear y then 29 else 28
  | 3 => 31
  | 4 => 30
  | 5 => 31
  | 6 => 30
  | 7 => 31
  | 8 => 31
  | 9 => 30
  | 10 => 31
  | 11 => 30
  | 12 => 31
  | _ => 0

/-- Days from 1970-01-01 to the given civil date (standard civil-from-days
inverse, using truncating integer division as in the reference algorithm). -/
def daysFromCivil (y m d : Int) : Int :=
  let yAdj := if m ≤ 2 then y - 1 else y
  let era := (if 0 ≤ yAdj then yAdj else yAdj - 399) / 400
  let yoe := yAdj - era * 400
  let mp := (m + 9) % 12
  let doy := (153 * mp + 2) / 5 + d - 1
  let doe := yoe * 365 + yoe / 4 - yoe / 100 + doy
  era * 146097 + doe - 719468

/-- Models JavaScript date parsing restricted to date-only ISO strings of the
form YYYY-MM-DD, read as UTC midnight; every other string is conservatively
treated as an invalid date (NaN, i.e. none). -/
def parseDateMs (s : String) : Option Int :=
  match s.splitOn "-" with
  | [ys, ms, ds] =>
    if ys.length = 4 && ms.length = 2 && ds.length = 2
        && ys.all Char.isDigit && ms.all Char.isDigit && ds.all Char.isDigit then
      let y : Int := (digitsToNat ys : Int)
      let m := digitsToNat ms
      let d := digitsToNat ds
      if 1 ≤ m && m ≤ 12 && 1 ≤ d && d ≤ daysInMonth y m then
        some (daysFromCivil y m d * 86400000)
      else none
    else none
  | _ => none

/-- Models getTime applied to a Date built from the value: some finite epoch
milliseconds, or none for NaN. Numbers are epoch milliseconds, null is epoch
zero, booleans coerce to 0 or 1, strings go through date parsing; arrays and
objects (which JavaScript would coerce through toString) are conservatively
treated as invalid dates. -/
def dateGetTime : JVal → Option Int
  | .jnull => some 0
  | .jundef => none
  | .jbool b => some (if b then 1 else 0)
  | .jnum n => some n
  | .jstr s => parseDateMs s
  | .jarr _ => none
  | .jobj _ => none

/-- Models localeCompare with the default locale on plain text: primary
strength compares the case-folded strings, and only exact ties consult the
raw strings, so case differences never outweigh letter differences. -/
def localeCmp (a b : String) : Int :=
  if a.toLower < b.toLower then -1
  else if b.toLower < a.toLower then 1
  else if a < b then -1
  else if b < a then 1
  else 0

/-- The String(a.title or empty) applied inside the comparator. -/
def titleStr (n : JVal) : String := jsToString (jsOr (jget n "title") (.jstr ""))

/-- The argument of the Date constructor in the comparator:
a.updatedAt, falling back (by truthiness) to a.createdAt, then to 0. -/
def effTimeArg (n : JVal) : JVal := jsOr (jsOr (jget n "updatedAt") (jget n "createdAt")) (.jnum 0)

/-- App.js comparator (lines 62 to 67). A NaN timestamp on either side makes
the comparator return NaN, which the sort treats as 0; that case is the
catch-all branch. -/
def cmpNotes (a b : JVal) : Int :=
  match dateGetTime (effTimeArg a), dateGetTime (effTimeArg b) with
  | some ta, some tb => if tb ≠ ta then tb - ta else localeCmp (titleStr a) (titleStr b)
  | _, _ => 0

/-- App.js sortedNotes: a stable sort of the collection by the comparator. -/
def sortedNotes (notes : List JVal) : List JVal :=
  notes.mergeSort (fun a b => decide (cmpNotes a b ≤ 0))

/-! ### The application state controller (App.js) -/

structure AppState where
  notes : List JVal
  selectedId : JVal
  editorTitle : String
  editorContent : String
  isDirty : Bool
  isLoading : Bool
  isSaving : Bool
  isDeleting : Bool
  error : String
  info : String
  deriving DecidableEq

/-- App.js selectedNote (lines 55 to 57): first collection entry whose id
matches the selection by string comparison, or none. -/
def selectedNote (s : AppState) : Option JVal :=
  s.notes.find? (fun n => jsToString (jget n "id") == jsToString s.selectedId)

/-- The normalize-and-filter pipeline of refreshNotes (line 75). -/
def admitNotes (data : List JVal) : List JVal :=
  (data.map normalizeNote).filter (fun n => !isNullish (jget n "id"))

/-- The expression first-entry id, else null, used for fallback selection. -/
def firstIdOrNull (l : List JVal) : JVal :=
  match l with
  | [] => .jnull
  | n :: _ => jnullish (jget n "id") .jnull

/-- Error message fallback: the thrown error message when non-empty,
otherwise the fixed default. -/
def errMsgOr (m dflt : String) : String := if m = "" then dflt else m

/-- App.js refreshNotes (lines 71 to 92), with the outcome of the listNotes
call passed in as data already shaped into a list (or the thrown message). -/
def refreshNotes (s0 : AppState) (keepSelection : Bool) (listResult : Except String (List JVal)) :
    AppState :=
  let s := { s0 with error := "" }
  match listResult with
  | .error e => { s with error := errMsgOr e "Failed to load notes." }
  | .ok data =>
    let normalized := admitNotes data
    let s1 := { s with notes := normalized }
    if !keepSelection then
      { s1 with selectedId := firstIdOrNull normalized }
    else if isNullish s1.selectedId && decide (0 < normalized.length) then
      { s1 with selectedId := jget (normalized.headD .jundef) "id" }
    else if !isNullish s1.selectedId then
      if normalized.any (fun n => jsToString (jget n "id") == jsToString s1.selectedId) then s1
      else { s1 with selectedId := firstIdOrNull normalized }
    else s1

/-- Field-by-field shallow merge of association lists, later fields winning,
preserving the key order of the first operand as object spread does. -/
def mergeFields (a b : List (String × JVal)) : List (String × JVal) :=
  (a.map (fun kv => (kv.1, match b.lookup kv.1 with | some w => w | none => kv.2)))
    ++ b.filter (fun kv => (a.lookup kv.1).isNone)

/-- Models the object spread of two objects, the second overriding the first. -/
def jmerge (x y : JVal) : JVal :=
  match x, y with
  | .jobj a, .jobj b => .jobj (mergeFields a b)
  | .jobj a, _ => .jobj a
  | _, .jobj b => .jobj b
  | _, _ => .jobj []

/-- The payload onSave sends: trimmed title defaulted to Untitled, raw content. -/
def savePayload (s : AppState) : JVal :=
  .jobj [("title", .jstr (if s.editorTitle.trim = "" then "Untitled" else s.editorTitle.trim)),
         ("content", .jstr s.editorContent)]

/-- App.js onSave (lines 166 to 196). The settled outcome of the updateNote
call is passed in; the list outcome backs the refresh taken when the
response has no usable id. -/
def onSave (s : AppState) (updateResult : Except String JVal)
    (refreshListResult : Except String (List JVal)) : AppState :=
  match selectedNote s with
  | none => s
  | some sn =>
    if !truthy (jget sn "id") then s
    else
      let s1 := { s with error := "", info := "", isSaving := true }
      let s2 :=
        match updateResult with
        | .ok updated =>
          let normalized := normalizeNote (jsOr updated (.jobj []))
          let s' :=
            if isNullish (jget normalized "id") then
              refreshNotes s1 true refreshListResult
            else
              { s1 with notes := s1.notes.map (fun n =>
                  if jsToString (jget n "id") == jsToString (jget normalized "id")
                  then jmerge n normalized else n) }
          { s' with isDirty := false, info := "Saved." }
        | .error e => { s1 with error := errMsgOr e "Failed to save note." }
      { s2 with isSaving := false }

/-- App.js onDelete (lines 198 to 222), with the confirmation dialog answer
and the settled outcome of the deleteNote call passed in. -/
def onDelete (s : AppState) (confirmed : Bool) (deleteResult : Except String JVal) : AppState :=
  match selectedNote s with
  | none => s
  | some sn =>
    if !truthy (jget sn "id") then s
    else
      let s1 := { s with error := "", info := "" }
      if !confirmed then s1
      else
        let s2 := { s1 with isDeleting := true }
        let s3 :=
          match deleteResult with
          | .ok _ =>
            let snId := jsToString (jget sn "id")
            let notes' := s2.notes.filter (fun n => jsToString (jget n "id") != snId)
            let remaining := s.notes.filter (fun n => jsToString (jget n "id") != snId)
            let newSel := if jsToString s2.selectedId != snId then s2.selectedId
              else firstIdOrNull remaining
            { s2 with notes := notes', selectedId := newSel, isDirty := false, info := "Deleted." }
          | .error e => { s2 with error := errMsgOr e "Failed to delete note." }
        { s3 with isDeleting := false }

/-- App.js onSelectNote (lines 124 to 130), with the confirmation dialog
answer passed in (it is only consulted when the guard asks for it). -/
def onSelectNote (s : AppState) (targetId : JVal) (confirmed : Bool) : AppState :=
  if s.isDirty && !isNullish s.selectedId
      && (jsToString targetId != jsToString s.selectedId) then
    if !confirmed then s else { s with selectedId := targetId }
  else { s with selectedId := targetId }

/-! ### The HTTP client (apiClient.js) -/

/-- A logical HTTP request as the client builds it: method, path (relative
to the resolved base URL) and optional JSON body. -/
structure ApiRequest where
  method : String
  path : String
  body : Option JVal
  deriving DecidableEq

/-- The ordered candidate resource path prefixes (apiClient.js line 74). -/
def NOTES_BASE_CANDIDATES : List String := ["/notes", "/api/notes"]

/-- The candidate fallback loop shared by the four operations (apiClient.js):
try each request in order, return the first success, and after the last
failure surface the last error. The network is embedded as a function from
requests to settled outcomes; the list of requests actually issued is
returned alongside the result. -/
def tryRequests (srv : ApiRequest → Except String JVal) :
    List ApiRequest → String → List ApiRequest × Except String JVal
  | [], lastErr => ([], .error lastErr)
  | r :: rest, _ =>
    match srv r with
    | .ok v => ([r], .ok v)
    | .error e =>
      let res := tryRequests srv rest e
      (r :: res.1, res.2)

/-- Percent-encoding: the characters encodeURIComponent leaves intact. -/
def isUnreservedURIChar (c : Char) : Bool :=
  c.isAlpha || c.isDigit || c == '-' || c == '_' || c == '.' || c == '!'
    || c == '~' || c == '*' || c == Char.ofNat 39 || c == '(' || c == ')'

/-- UTF-8 bytes of a character. -/
def utf8Bytes (c : Char) : List Nat :=
  let n := c.toNat
  if n < 128 then [n]
  else if n < 2048 then [192 + n / 64, 128 + n % 64]
  else if n < 65536 then [224 + n / 4096, 128 + (n / 64) % 64, 128 + n % 64]
  else [240 + n / 262144, 128 + (n / 4096) % 64, 128 + (n / 64) % 64, 128 + n % 64]

def hexDigitChar (n : Nat) : Char := if n < 10 then Char.ofNat (48 + n) else Char.ofNat (55 + n)

/-- A percent-escape for one byte. -/
def percentByte (b : Nat) : List Char := ['%', hexDigitChar (b / 16 % 16), hexDigitChar (b % 16)]

/-- Models encodeURIComponent: unreserved characters pass through, every
other character is replaced by the percent-escapes of its UTF-8 bytes. -/
def encodeURIComponent (s : String) : String :=
  ⟨s.data.flatMap (fun c =>
    if isUnreservedURIChar c then [c] else (utf8Bytes c).flatMap percentByte)⟩

/-- The requests listNotes would issue, in candidate order. -/
def listNotesRequests : List ApiRequest :=
  NOTES_BASE_CANDIDATES.map (fun base => ⟨"GET", base, none⟩)

/-- The requests createNote would issue, in candidate order. -/
def createNoteRequests (note : JVal) : List ApiRequest :=
  NOTES_BASE_CANDIDATES.map (fun base => ⟨"POST", base, some note⟩)

/-- The requests updateNote would issue, in candidate order (apiClient.js
line 114: the path is the candidate prefix, a slash, and the encoded id). -/
def updateNoteRequests (noteId : JVal) (note : JVal) : List ApiRequest :=
  NOTES_BASE_CANDIDATES.map (fun base =>
    ⟨"PUT", base ++ "/" ++ encodeURIComponent (jsToString noteId), some note⟩)

/-- The requests deleteNote would issue, in candidate order. -/
def deleteNoteRequests (noteId : JVal) : List ApiRequest :=
  NOTES_BASE_CANDIDATES.map (fun base =>
    ⟨"DELETE", base ++ "/" ++ encodeURIComponent (jsToString noteId), none⟩)

/-- Response shape acceptance in listNotes (apiClient.js lines 83 to 86):
a bare array is taken as is, an object with an array under the notes key
yields that array, anything else yields the empty list. -/
def listShape (data : JVal) : List JVal :=
  match data with
  | .jarr xs => xs
  | d => if truthy d then (match jget d "notes" with | .jarr ys => ys | _ => []) else []

/-- apiClient.js listNotes (lines 77 to 92). -/
def listNotes (srv : ApiRequest → Except String JVal) :
    List ApiRequest × Except String (List JVal) :=
  let res := tryRequests srv listNotesRequests ""
  (res.1, res.2.map listShape)

/-- apiClient.js createNote (lines 95 to 106). -/
def createNote (srv : ApiRequest → Except String JVal) (note : JVal) :
    List ApiRequest × Except String JVal :=
  tryRequests srv (createNoteRequests note) ""

/-- apiClient.js updateNote (lines 109 to 123). -/
def updateNote (srv : ApiRequest → Except String JVal) (noteId : JVal) (note : JVal) :
    List ApiRequest × Except String JVal :=
  tryRequests srv (updateNoteRequests noteId note) ""

/-- apiClient.js deleteNote (lines 126 to 137). -/
def deleteNote (srv : ApiRequest → Except String JVal) (noteId : JVal) :
    List ApiRequest × Except String JVal :=
  tryRequests srv (deleteNoteRequests noteId) ""

/-- Effective time of a note under the comparator, with the NaN case
defaulted to 0; meaningful under a hypothesis excluding invalid dates. -/
def effTimeVal (n : JVal) : Int := (dateGetTime (effTimeArg n)).getD 0

/-- A total, transitive comparison that agrees with the App.js comparator on
notes whose effective timestamps are valid dates: later effective time
first, ties by the locale comparison of the titles. -/
def leNotes (a b : JVal) : Bool :=
  decide (effTimeVal b < effTimeVal a)
    || (decide (effTimeVal a = effTimeVal b) && decide (localeCmp (titleStr a) (titleStr b) ≤ 0))

/-- The effective timestamp exactly as the claim words it (nullish fallback
from updatedAt to createdAt to epoch zero); stated for comparison with the
comparator actually in the code, which falls back on any falsy value. -/
def claimEffTs (n : JVal) : Option Int :=
  dateGetTime (jnullish (jnullish (jget n "updatedAt") (jget n "createdAt")) (.jnum 0))

/-- The ordering the claim asserts of the sorted view (descending effective
timestamp in the claim reading, ascending case-insensitive title on ties),
stated for comparison with the order the code produces. -/
def claimNoteLe (a b : JVal) : Bool :=
  decide ((claimEffTs b).getD 0 < (claimEffTs a).getD 0)
    || (decide ((claimEffTs a).getD 0 = (claimEffTs b).getD 0)
        && decide ((titleStr a).toLower ≤ (titleStr b).toLower))

/-! ### Helper lemmas -/

theorem isNullish_eq_true_iff {v : JVal} : isNullish v = true ↔ v = .jnull ∨ v = .jundef := by
  cases v <;> simp [isNullish]

theorem isNullish_jnullish (a b : JVal) :
    isNullish (jnullish a b) = (isNullish a && isNullish b) := by
  cases h : isNullish a <;> simp [jnullish, h]

theorem jnullish_of_isNullish {a : JVal} (b : JVal) (h : isNullish a = true) :
    jnullish a b = b := by
  simp [jnullish, h]

theorem jnullish_of_not_isNullish {a : JVal} (b : JVal) (h : isNullish a = false) :
    jnullish a b = a := by
  simp [jnullish, h]

theorem jnullish_absorb (a b c : JVal) (h : isNullish b = false) :
    jnullish (jnullish a b) c = jnullish a b := by
  cases ha : isNullish a <;> simp [jnullish, ha, h]

theorem jnullish_null_cap (a b : JVal) :
    jnullish (jnullish a (jnullish b .jnull)) .jnull = jnullish a (jnullish b .jnull) := by
  cases ha : isNullish a
  · rw [jnullish_of_not_isNullish _ ha, jnullish_of_not_isNullish _ ha]
  · rw [jnullish_of_isNullish _ ha]
    cases hb : isNullish b
    · rw [jnullish_of_not_isNullish _ hb, jnullish_of_not_isNullish _ hb]
    · rw [jnullish_of_isNullish _ hb]
      rfl

/-! ### C8: declining the discard confirmation on a select is a no-op -/

/-- C8: with a dirty draft and a note selected, selecting a different id
(existing or not) while the confirmation dialog is declined leaves the
whole state, in particular selection, draft fields and dirty flag,
unchanged. -/
theorem select_declined_is_noop (s : AppState) (targetId : JVal)
    (hd : s.isDirty = true) (hsel : isNullish s.selectedId = false)
    (hdiff : jsToString targetId ≠ jsToString s.selectedId) :
    onSelectNote s targetId false = s := by
  simp [onSelectNote, hd, hsel, hdiff]

theorem select_declined_is_noop_witness :
    onSelectNote
      ⟨[.jobj [("id", .jnum 1), ("title", .jstr "A"), ("content", .jstr ""),
        ("createdAt", .jnull), ("updatedAt", .jstr "2024-01-01")]],
        .jnum 1, "A", "edited", true, false, false, false, "", ""⟩ (.jnum 2) false
    = ⟨[.jobj [("id", .jnum 1), ("title", .jstr "A"), ("content", .jstr ""),
        ("createdAt", .jnull), ("updatedAt", .jstr "2024-01-01")]],
        .jnum 1, "A", "edited", true, false, false, false, "", ""⟩ :=
  select_declined_is_noop _ _ rfl rfl (by decide)

/-! ### C3: a failed save mutates neither collection nor dirty flag -/

/-- C3: when the update call underlying Save fails, onSave leaves the note
collection identical to its pre-call state and the dirty flag still true. -/
theorem save_failure_preserves (s : AppState) (e : String) (lr : Except String (List JVal))
    (hd : s.isDirty = true) :
    (onSave s (.error e) lr).notes = s.notes ∧ (onSave s (.error e) lr).isDirty = true := by
  unfold onSave
  cases hsel : selectedNote s with
  | none => exact ⟨rfl, hd⟩
  | some sn =>
    cases hid : truthy (jget sn "id") <;> simp [hid, hd]

theorem save_failure_preserves_witness :
    ((onSave ⟨[.jobj [("id", .jnum 1), ("title", .jstr "A"), ("content", .jstr "c"),
        ("createdAt", .jnull), ("updatedAt", .jnull)]],
        .jnum 1, "A", "edited", true, false, false, false, "", ""⟩
        (.error "Request failed (500)") (.ok [])).notes
      = [.jobj [("id", .jnum 1), ("title", .jstr "A"), ("content", .jstr "c"),
        ("createdAt", .jnull), ("updatedAt", .jnull)]]) ∧
    ((onSave ⟨[.jobj [("id", .jnum 1), ("title", .jstr "A"), ("content", .jstr "c"),
        ("createdAt", .jnull), ("updatedAt", .jnull)]],
        .jnum 1, "A", "edited", true, false, false, false, "", ""⟩
        (.error "Request failed (500)") (.ok [])).isDirty = true) :=
  save_failure_preserves _ _ _ rfl

/-! ### C9: idempotence of normalizeNote -/

/-- C9 counterexample: a record whose only identifier alias is an explicit
null. Normalizing once stores id null (the alias chain ends in the raw uuid
value); normalizing the result turns that id into undefined, because the
alias chain of the normalized object finds id null and falls through to the
absent aliases. So normalizeNote applied twice differs from normalizeNote. -/
theorem normalizeNote_not_idempotent :
    normalizeNote (normalizeNote (.jobj [("uuid", .jnull)]))
      ≠ normalizeNote (.jobj [("uuid", .jnull)]) := by decide

/-- C9 (amended): normalizeNote is idempotent on every raw record whose
identifier alias chain does not evaluate to an explicit null, in particular
on every record carrying a non-nullish identifier alias (every admitted
note) and on every record lacking all aliases; in the sole remaining case
(all aliases nullish and uuid explicitly null) renormalizing only changes
the id from null to undefined, which admission filtering treats alike. -/
theorem normalizeNote_idem (raw : JVal) (h : idAliasChain raw ≠ JVal.jnull) :
    normalizeNote (normalizeNote raw) = normalizeNote raw := by
  generalize hN : normalizeNote raw = N
  have e1 : jget N "id" = idAliasChain raw := by rw [← hN]; rfl
  have e2 : jget N "_id" = JVal.jundef := by rw [← hN]; rfl
  have e3 : jget N "noteId" = JVal.jundef := by rw [← hN]; rfl
  have e4 : jget N "uuid" = JVal.jundef := by rw [← hN]; rfl
  have e5 : jget N "title" = jnullish (jget raw "title") (JVal.jstr "") := by rw [← hN]; rfl
  have e6 : jget N "content" = jnullish (jget raw "content") (JVal.jstr "") := by rw [← hN]; rfl
  have e7 : jget N "createdAt"
      = jnullish (jget raw "createdAt") (jnullish (jget raw "created_at") JVal.jnull) := by
    rw [← hN]; rfl
  have e8 : jget N "created_at" = JVal.jundef := by rw [← hN]; rfl
  have e9 : jget N "updatedAt"
      = jnullish (jget raw "updatedAt") (jnullish (jget raw "updated_at") JVal.jnull) := by
    rw [← hN]; rfl
  have e10 : jget N "updated_at" = JVal.jundef := by rw [← hN]; rfl
  unfold normalizeNote
  rw [e1, e2, e3, e4, e5, e6, e7, e8, e9, e10]
  have hu3 : jnullish JVal.jundef (jnullish JVal.jundef JVal.jundef) = JVal.jundef := rfl
  have hun : jnullish JVal.jundef JVal.jnull = JVal.jnull := rfl
  rw [hu3, hun]
  have hid2 : jnullish (idAliasChain raw) JVal.jundef = idAliasChain raw := by
    cases hx : idAliasChain raw
    · exact absurd hx h
    all_goals rfl
  rw [hid2,
    jnullish_absorb (jget raw "title") (JVal.jstr "") (JVal.jstr "") rfl,
    jnullish_absorb (jget raw "content") (JVal.jstr "") (JVal.jstr "") rfl,
    jnullish_null_cap (jget raw "createdAt") (jget raw "created_at"),
    jnullish_null_cap (jget raw "updatedAt") (jget raw "updated_at")]
  rw [← hN]
  rfl

theorem normalizeNote_idem_witness :
    normalizeNote (normalizeNote (.jobj [("id", .jstr "a"), ("title", .jstr "T")]))
      = normalizeNote (.jobj [("id", .jstr "a"), ("title", .jstr "T")]) :=
  normalizeNote_idem _ (by decide)

/-! ### C2: admission into the collection requires a usable id -/

/-- C2: a raw record's normalization carries a non-nullish id exactly when
the record holds a non-nullish value under at least one recognized alias;
the refresh pipeline drops a record lacking all aliases, admits one with a
usable id, and every note it admits has a non-nullish id. -/
theorem admission_characterization :
    (∀ raw : JVal, (isNullish (jget (normalizeNote raw) "id") = false
        ↔ ∃ k ∈ idAliases, isNullish (jget raw k) = false)) ∧
    (∀ raw : JVal, (∀ k ∈ idAliases, isNullish (jget raw k) = true) → admitNotes [raw] = []) ∧
    (∀ raw : JVal, isNullish (jget (normalizeNote raw) "id") = false →
        admitNotes [raw] = [normalizeNote raw]) ∧
    (∀ (data : List JVal), ∀ n ∈ admitNotes data, isNullish (jget n "id") = false) := by
  have hch : ∀ raw : JVal, jget (normalizeNote raw) "id" = idAliasChain raw := fun _ => rfl
  have hnl : ∀ raw : JVal, isNullish (idAliasChain raw)
      = (isNullish (jget raw "id") && (isNullish (jget raw "_id")
         && (isNullish (jget raw "noteId") && isNullish (jget raw "uuid")))) := by
    intro raw
    unfold idAliasChain
    rw [isNullish_jnullish, isNullish_jnullish, isNullish_jnullish]
  refine ⟨?_, ?_, ?_, ?_⟩
  · intro raw
    rw [hch, hnl]
    simp only [idAliases, List.mem_cons, List.not_mem_nil, or_false, exists_eq_or_imp,
      exists_eq_left]
    cases isNullish (jget raw "id") <;> cases isNullish (jget raw "_id") <;>
      cases isNullish (jget raw "noteId") <;> cases isNullish (jget raw "uuid") <;> simp
  · intro raw hall
    have h1 := hall "id" (by simp [idAliases])
    have h2 := hall "_id" (by simp [idAliases])
    have h3 := hall "noteId" (by simp [idAliases])
    have h4 := hall "uuid" (by simp [idAliases])
    simp [admitNotes, hch, hnl, h1, h2, h3, h4]
  · intro raw hok
    simp [admitNotes, hok]
  · intro data n hn
    simp only [admitNotes, List.mem_filter] at hn
    simpa using hn.2

theorem admission_characterization_witness :
    admitNotes [.jobj [("noteId", .jstr "n-1")]]
      = [normalizeNote (.jobj [("noteId", .jstr "n-1")])] ∧
    admitNotes [.jobj [("title", .jstr "orphan"), ("uuid", .jnull)]] = [] :=
  ⟨admission_characterization.2.2.1 _ (by decide),
   admission_characterization.2.1 _ (by decide)⟩

/-! ### C5: deleting the selected note -/

/-- C5: after a confirmed successful delete of the selected note, the
collection equals the pre-call collection with every entry matching the
selected id (by string comparison) removed, the selection becomes the first
remaining note of the pre-deletion order (null when none remain), the dirty
flag is cleared, and no remaining note carries the deleted id. -/
theorem delete_success_spec (s : AppState) (sn resp : JVal)
    (hsel : selectedNote s = some sn) (hid : truthy (jget sn "id") = true) :
    (onDelete s true (.ok resp)).notes
        = s.notes.filter (fun n => jsToString (jget n "id") != jsToString (jget sn "id")) ∧
    (onDelete s true (.ok resp)).selectedId
        = firstIdOrNull (s.notes.filter
            (fun n => jsToString (jget n "id") != jsToString (jget sn "id"))) ∧
    (onDelete s true (.ok resp)).isDirty = false ∧
    (∀ n ∈ (onDelete s true (.ok resp)).notes,
        jsToString (jget n "id") ≠ jsToString (jget sn "id")) ∧
    (s.notes.filter (fun n => jsToString (jget n "id") != jsToString (jget sn "id")) = [] →
        (onDelete s true (.ok resp)).selectedId = .jnull) := by
  have hpred := List.find?_some hsel
  have heq : jsToString s.selectedId = jsToString (jget sn "id") := by
    have : jsToString (jget sn "id") = jsToString s.selectedId := by simpa using hpred
    exact this.symm
  have hmain : onDelete s true (.ok resp)
      = { s with
          notes := s.notes.filter
            (fun n => jsToString (jget n "id") != jsToString (jget sn "id")),
          selectedId := firstIdOrNull (s.notes.filter
            (fun n => jsToString (jget n "id") != jsToString (jget sn "id"))),
          isDirty := false, isDeleting := false, error := "", info := "Deleted." } := by
    unfold onDelete
    rw [hsel]
    simp [hid, heq]
  rw [hmain]
  refine ⟨rfl, rfl, rfl, ?_, ?_⟩
  · intro n hn
    simp only [List.mem_filter, bne_iff_ne, ne_eq] at hn
    exact hn.2
  · intro hempty
    simp only [hempty]
    rfl

theorem delete_success_spec_witness :
    ((onDelete ⟨[.jobj [("id", .jnum 1)], .jobj [("id", .jnum 2)]],
        .jnum 1, "", "", false, false, false, false, "", ""⟩ true (.ok .jnull)).notes
      = [.jobj [("id", .jnum 1)], .jobj [("id", .jnum 2)]].filter
          (fun n => jsToString (jget n "id") != jsToString (jget (.jobj [("id", .jnum 1)]) "id"))) ∧
    ((onDelete ⟨[.jobj [("id", .jnum 1)], .jobj [("id", .jnum 2)]],
        .jnum 1, "", "", false, false, false, false, "", ""⟩ true (.ok .jnull)).selectedId
      = firstIdOrNull ([.jobj [("id", .jnum 1)], .jobj [("id", .jnum 2)]].filter
          (fun n => jsToString (jget n "id") != jsToString (jget (.jobj [("id", .jnum 1)]) "id")))) ∧
    ((onDelete ⟨[.jobj [("id", .jnum 1)], .jobj [("id", .jnum 2)]],
        .jnum 1, "", "", false, false, false, false, "", ""⟩ true (.ok .jnull)).isDirty = false) := by
  have h := delete_success_spec
    ⟨[.jobj [("id", .jnum 1)], .jobj [("id", .jnum 2)]],
      .jnum 1, "", "", false, false, false, false, "", ""⟩
    (.jobj [("id", .jnum 1)]) .jnull (by decide) (by decide)
  exact ⟨h.1, h.2.1, h.2.2.1⟩

/-! ### C4: a successful save merges the matching entry -/

theorem lookup_mapOverride (b : List (String × JVal)) (k : String) :
    ∀ (a : List (String × JVal)),
      (a.map (fun kv => (kv.1, match b.lookup kv.1 with | some w => w | none => kv.2))).lookup k
        = (a.lookup k).map (fun v => match b.lookup k with | some w => w | none => v)
  | [] => rfl
  | (k₀, v₀) :: a' => by
    simp only [List.map_cons, List.lookup_cons]
    cases hk : k == k₀
    · simp only [lookup_mapOverride b k a']
    · have : k = k₀ := by simpa using hk
      subst this
      rfl

theorem lookup_filter_of_lookup_none (a : List (String × JVal)) (k : String)
    (ha : a.lookup k = none) :
    ∀ (b : List (String × JVal)),
      (b.filter (fun kv => (a.lookup kv.1).isNone)).lookup k = b.lookup k
  | [] => rfl
  | (k₁, w) :: b' => by
    cases hk : k == k₁
    · have ih := lookup_filter_of_lookup_none a k ha b'
      cases hkeep : (a.lookup k₁).isNone <;>
        simp [List.filter_cons, hkeep, List.lookup_cons, hk, ih]
    · have hkk : k = k₁ := by simpa using hk
      subst hkk
      have hkeep : (a.lookup k).isNone = true := by simp [ha]
      simp [List.filter_cons, hkeep, List.lookup_cons]

theorem jget_jmerge (a b : List (String × JVal)) (k : String) :
    jget (jmerge (.jobj a) (.jobj b)) k
      = match b.lookup k with | some w => w | none => jget (.jobj a) k := by
  show (match (mergeFields a b).lookup k with | some w => w | none => JVal.jundef)
      = match b.lookup k with | some w => w | none => jget (.jobj a) k
  unfold mergeFields
  rw [List.lookup_append, lookup_mapOverride]
  cases ha : a.lookup k with
  | some v =>
    simp only [Option.map_some', Option.or_some]
    cases hb : b.lookup k <;> simp [jget, ha]
  | none =>
    simp only [Option.map_none', Option.none_or]
    rw [lookup_filter_of_lookup_none a k ha b]
    cases hb : b.lookup k <;> simp [jget, ha]

/-- C4: after a successful save whose response (after the empty-object
fallback) normalizes to a note with a non-nullish id, the dirty flag is
cleared and the collection maps each entry matching that id by string
comparison to the shallow merge of its previous fields overridden by the
normalized response, leaving other entries unchanged; the final conjunct
characterizes the shallow merge field by field. -/
theorem save_success_merges (s : AppState) (sn updated norm : JVal)
    (lr : Except String (List JVal))
    (hsel : selectedNote s = some sn) (hid : truthy (jget sn "id") = true)
    (hnd : norm = normalizeNote (jsOr updated (.jobj [])))
    (hok : isNullish (jget norm "id") = false) :
    (onSave s (.ok updated) lr).isDirty = false ∧
    (onSave s (.ok updated) lr).notes.length = s.notes.length ∧
    (∀ i (hi : i < s.notes.length),
      (onSave s (.ok updated) lr).notes[i]?
        = some (if jsToString (jget s.notes[i] "id") = jsToString (jget norm "id")
                then jmerge s.notes[i] norm else s.notes[i])) ∧
    (∀ (a b : List (String × JVal)) (k : String),
      jget (jmerge (.jobj a) (.jobj b)) k
        = match b.lookup k with | some w => w | none => jget (.jobj a) k) := by
  subst hnd
  have hmain : onSave s (.ok updated) lr
      = { s with
          notes := s.notes.map (fun n =>
            if jsToString (jget n "id")
                == jsToString (jget (normalizeNote (jsOr updated (.jobj []))) "id")
            then jmerge n (normalizeNote (jsOr updated (.jobj []))) else n),
          isDirty := false, isSaving := false, error := "", info := "Saved." } := by
    unfold onSave
    rw [hsel]
    simp [hid, hok]
  rw [hmain]
  refine ⟨rfl, by simp, ?_, jget_jmerge⟩
  intro i hi
  simp only [List.getElem?_map]
  rw [List.getElem?_eq_getElem hi]
  by_cases hc : jsToString (jget s.notes[i] "id")
      = jsToString (jget (normalizeNote (jsOr updated (.jobj []))) "id")
  · simp [hc]
  · simp [hc]

theorem save_success_merges_witness :
    ((onSave ⟨[.jobj [("id", .jnum 1), ("title", .jstr "A"), ("content", .jstr "c")]],
        .jnum 1, "B", "c", true, false, false, false, "", ""⟩
        (.ok (.jobj [("id", .jnum 1), ("title", .jstr "B")])) (.ok [])).isDirty = false) ∧
    ((onSave ⟨[.jobj [("id", .jnum 1), ("title", .jstr "A"), ("content", .jstr "c")]],
        .jnum 1, "B", "c", true, false, false, false, "", ""⟩
        (.ok (.jobj [("id", .jnum 1), ("title", .jstr "B")])) (.ok [])).notes.length
      = [JVal.jobj [("id", .jnum 1), ("title", .jstr "A"), ("content", .jstr "c")]].length) := by
  have h := save_success_merges
    ⟨[.jobj [("id", .jnum 1), ("title", .jstr "A"), ("content", .jstr "c")]],
      .jnum 1, "B", "c", true, false, false, false, "", ""⟩
    (.jobj [("id", .jnum 1), ("title", .jstr "A"), ("content", .jstr "c")])
    (.jobj [("id", .jnum 1), ("title", .jstr "B")])
    (normalizeNote (jsOr (.jobj [("id", .jnum 1), ("title", .jstr "B")]) (.jobj [])))
    (.ok []) (by decide) (by decide) rfl (by decide)
  exact ⟨h.1, h.2.1⟩

/-! ### C6: listNotes response shape tolerance -/

/-- C6: on a success body, listNotes returns the bare array itself, or the
notes field when the body is an object carrying an array there, and the
empty list for any other shape; a success on either candidate never yields
an error, and an error only arises when both candidates fail (surfacing the
last one). -/
theorem listNotes_shapes (srv : ApiRequest → Except String JVal) :
    (∀ body, srv ⟨"GET", "/notes", none⟩ = .ok body →
        (listNotes srv).2 = .ok (listShape body)) ∧
    (∀ e body, srv ⟨"GET", "/notes", none⟩ = .error e →
        srv ⟨"GET", "/api/notes", none⟩ = .ok body →
        (listNotes srv).2 = .ok (listShape body)) ∧
    (∀ e₁ e₂, srv ⟨"GET", "/notes", none⟩ = .error e₁ →
        srv ⟨"GET", "/api/notes", none⟩ = .error e₂ →
        (listNotes srv).2 = .error e₂) ∧
    (∀ xs, listShape (.jarr xs) = xs) ∧
    (∀ fields ys, fields.lookup "notes" = some (.jarr ys) → listShape (.jobj fields) = ys) ∧
    (∀ body, (∀ xs, body ≠ .jarr xs) → (∀ ys, jget body "notes" ≠ .jarr ys) →
        listShape body = []) := by
  refine ⟨?_, ?_, ?_, fun xs => rfl, ?_, ?_⟩
  · intro body h1
    unfold listNotes listNotesRequests NOTES_BASE_CANDIDATES tryRequests
    simp [h1, Except.map]
  · intro e body h1 h2
    unfold listNotes listNotesRequests NOTES_BASE_CANDIDATES tryRequests
    simp [h1, h2, tryRequests, Except.map]
  · intro e₁ e₂ h1 h2
    unfold listNotes listNotesRequests NOTES_BASE_CANDIDATES tryRequests
    simp [h1, h2, tryRequests, Except.map]
  · intro fields ys h
    show (match jget (JVal.jobj fields) "notes" with | JVal.jarr ys => ys | _ => []) = ys
    simp [jget, h]
  · intro body h1 h2
    cases body with
    | jarr xs => exact absurd rfl (h1 xs)
    | jobj fields =>
      show (match jget (JVal.jobj fields) "notes" with | JVal.jarr ys => ys | _ => []) = []
      cases hg : jget (JVal.jobj fields) "notes" <;> first | rfl | exact absurd hg (h2 _)
    | jnull => rfl
    | jundef => rfl
    | jbool b => cases b <;> rfl
    | jnum n =>
      show (if truthy (JVal.jnum n) = true then _ else []) = []
      split <;> rfl
    | jstr str =>
      show (if truthy (JVal.jstr str) = true then _ else []) = []
      split <;> rfl

theorem listNotes_shapes_witness :
    ((listNotes (fun _ => .ok (.jobj [("notes", .jarr [.jnum 1, .jnum 2])]))).2
        = .ok (listShape (.jobj [("notes", .jarr [.jnum 1, .jnum 2])]))) ∧
    (listShape (.jobj [("notes", .jarr [.jnum 1, .jnum 2])]) = [.jnum 1, .jnum 2]) ∧
    (listShape (.jobj []) = []) := by
  have h := listNotes_shapes (fun _ => .ok (.jobj [("notes", .jarr [.jnum 1, .jnum 2])]))
  refine ⟨h.1 _ rfl, h.2.2.2.2.1 _ _ (by decide),
    h.2.2.2.2.2 _ (fun xs hx => by simp at hx) (fun ys hy => by simp [jget] at hy)⟩

/-! ### C7: createNote candidate fallback -/

/-- C7: when the primary create candidate fails, createNote issues exactly
one further request, to the alternate candidate, and its overall outcome is
exactly the alternate's outcome; in particular when both candidates fail
the surfaced error is the alternate's (the last) error. -/
theorem createNote_fallback (srv : ApiRequest → Except String JVal) (note : JVal) (e₁ : String)
    (h1 : srv ⟨"POST", "/notes", some note⟩ = .error e₁) :
    (createNote srv note).1
      = [⟨"POST", "/notes", some note⟩, ⟨"POST", "/api/notes", some note⟩] ∧
    (createNote srv note).2 = srv ⟨"POST", "/api/notes", some note⟩ := by
  unfold createNote createNoteRequests NOTES_BASE_CANDIDATES
  simp only [List.map_cons, List.map_nil]
  unfold tryRequests
  rw [h1]
  cases h2 : srv ⟨"POST", "/api/notes", some note⟩ <;> simp [tryRequests, h2]

theorem createNote_fallback_witness :
    ((createNote (fun r => if r.path = "/notes" then .error "e1" else .error "e2") .jnull).1
      = [⟨"POST", "/notes", some .jnull⟩, ⟨"POST", "/api/notes", some .jnull⟩]) ∧
    ((createNote (fun r => if r.path = "/notes" then .error "e1" else .error "e2") .jnull).2
      = (fun r : ApiRequest => if r.path = "/notes" then (.error "e1" : Except String JVal)
          else .error "e2") ⟨"POST", "/api/notes", some .jnull⟩) :=
  createNote_fallback _ .jnull "e1" rfl

/-! ### C10: ids are percent-encoded into the request path -/

theorem hexDigitChar_safe : ∀ k, k < 16 →
    hexDigitChar k ≠ '/' ∧ hexDigitChar k ≠ ' ' ∧ hexDigitChar k ≠ '?' ∧ hexDigitChar k ≠ '#' := by
  decide

theorem tryRequests_mem (srv : ApiRequest → Except String JVal) :
    ∀ (reqs : List ApiRequest) (e : String) (r : ApiRequest),
      r ∈ (tryRequests srv reqs e).1 → r ∈ reqs
  | [], _, _, h => by simp [tryRequests] at h
  | q :: rest, e, r, h => by
    unfold tryRequests at h
    cases hq : srv q with
    | ok v =>
      rw [hq] at h
      simp only [List.mem_singleton] at h
      simp [h]
    | error e₂ =>
      rw [hq] at h
      simp only [List.mem_cons] at h
      rcases h with h | h
      · simp [h]
      · exact List.mem_cons_of_mem _ (tryRequests_mem srv rest e₂ r h)

theorem encodeURIComponent_chars (s : String) :
    ∀ c ∈ (encodeURIComponent s).data, c ≠ '/' ∧ c ≠ ' ' ∧ c ≠ '?' ∧ c ≠ '#' := by
  intro c hc
  have hc' : c ∈ s.data.flatMap (fun c0 =>
      if isUnreservedURIChar c0 then [c0] else (utf8Bytes c0).flatMap percentByte) := hc
  rw [List.mem_flatMap] at hc'
  obtain ⟨c0, _, hmem⟩ := hc'
  by_cases hu : isUnreservedURIChar c0 = true
  · rw [if_pos hu] at hmem
    simp only [List.mem_singleton] at hmem
    subst hmem
    refine ⟨?_, ?_, ?_, ?_⟩ <;> rintro rfl <;> exact absurd hu (by decide)
  · rw [if_neg hu] at hmem
    rw [List.mem_flatMap] at hmem
    obtain ⟨b, _, hb⟩ := hmem
    simp only [percentByte, List.mem_cons, List.not_mem_nil, or_false] at hb
    rcases hb with rfl | rfl | rfl
    · exact ⟨by decide, by decide, by decide, by decide⟩
    · exact hexDigitChar_safe _ (Nat.mod_lt _ (by decide))
    · exact hexDigitChar_safe _ (Nat.mod_lt _ (by decide))

/-- C10: updateNote and deleteNote address the note at the candidate prefix
followed by a slash and the percent-encoded string form of the id; every
request they issue is one of those two candidates, and the encoded id never
contains a slash, space, question mark or hash, so the id cannot change the
path structure of the request. -/
theorem encoded_paths (noteId note : JVal) :
    ((updateNoteRequests noteId note).map ApiRequest.path
        = ["/notes/" ++ encodeURIComponent (jsToString noteId),
           "/api/notes/" ++ encodeURIComponent (jsToString noteId)]) ∧
    ((deleteNoteRequests noteId).map ApiRequest.path
        = ["/notes/" ++ encodeURIComponent (jsToString noteId),
           "/api/notes/" ++ encodeURIComponent (jsToString noteId)]) ∧
    (∀ (srv : ApiRequest → Except String JVal) (r : ApiRequest),
        r ∈ (updateNote srv noteId note).1 → r ∈ updateNoteRequests noteId note) ∧
    (∀ (srv : ApiRequest → Except String JVal) (r : ApiRequest),
        r ∈ (deleteNote srv noteId).1 → r ∈ deleteNoteRequests noteId) ∧
    (∀ s : String, ∀ c ∈ (encodeURIComponent s).data,
        c ≠ '/' ∧ c ≠ ' ' ∧ c ≠ '?' ∧ c ≠ '#') := by
  refine ⟨rfl, rfl, ?_, ?_, encodeURIComponent_chars⟩
  · intro srv r h
    exact tryRequests_mem srv _ _ _ h
  · intro srv r h
    exact tryRequests_mem srv _ _ _ h

theorem encoded_paths_witness :
    ((updateNoteRequests (.jstr "a/b c?d#e") .jnull).map ApiRequest.path
        = ["/notes/" ++ encodeURIComponent (jsToString (.jstr "a/b c?d#e")),
           "/api/notes/" ++ encodeURIComponent (jsToString (.jstr "a/b c?d#e"))]) ∧
    ('a' ≠ '/' ∧ 'a' ≠ ' ' ∧ 'a' ≠ '?' ∧ 'a' ≠ '#') := by
  have h := encoded_paths (.jstr "a/b c?d#e") .jnull
  exact ⟨h.1, h.2.2.2.2 "a/b c?d#e" 'a' (by decide)⟩

/-! ### C1: the sorted view -/

theorem localeCmp_le_zero_iff (a b : String) :
    localeCmp a b ≤ 0 ↔ (a.toLower < b.toLower ∨ (a.toLower = b.toLower ∧ a ≤ b)) := by
  unfold localeCmp
  split_ifs with h1 h2 h3 h4
  · simp [h1]
  · constructor
    · intro h
      exact absurd h (by norm_num)
    · rintro (h | ⟨heq, hle⟩)
      · exact absurd h (lt_asymm h2)
      · rw [heq] at h2
        exact absurd h2 (lt_irrefl _)
  · have heq : a.toLower = b.toLower := le_antisymm (not_lt.mp h2) (not_lt.mp h1)
    exact ⟨fun _ => Or.inr ⟨heq, le_of_lt h3⟩, fun _ => by norm_num⟩
  · have heq : a.toLower = b.toLower := le_antisymm (not_lt.mp h2) (not_lt.mp h1)
    constructor
    · intro h
      exact absurd h (by norm_num)
    · rintro (h | ⟨_, hle⟩)
      · rw [heq] at h
        exact absurd h (lt_irrefl _)
      · exact absurd h4 (not_lt.mpr hle)
  · have heq : a.toLower = b.toLower := le_antisymm (not_lt.mp h2) (not_lt.mp h1)
    exact ⟨fun _ => Or.inr ⟨heq, not_lt.mp h4⟩, fun _ => le_refl 0⟩

theorem localeCmp_trans {a b c : String} (hab : localeCmp a b ≤ 0) (hbc : localeCmp b c ≤ 0) :
    localeCmp a c ≤ 0 := by
  rw [localeCmp_le_zero_iff] at hab hbc ⊢
  rcases hab with h | ⟨e1, l1⟩ <;> rcases hbc with h' | ⟨e2, l2⟩
  · exact Or.inl (lt_trans h h')
  · exact Or.inl (e2 ▸ h)
  · exact Or.inl (e1 ▸ h')
  · exact Or.inr ⟨e1.trans e2, le_trans l1 l2⟩

theorem localeCmp_total (a b : String) : localeCmp a b ≤ 0 ∨ localeCmp b a ≤ 0 := by
  rw [localeCmp_le_zero_iff, localeCmp_le_zero_iff]
  rcases lt_trichotomy a.toLower b.toLower with h | h | h
  · exact Or.inl (Or.inl h)
  · rcases le_total a b with hl | hl
    · exact Or.inl (Or.inr ⟨h, hl⟩)
    · exact Or.inr (Or.inr ⟨h.symm, hl⟩)
  · exact Or.inr (Or.inl h)

theorem leNotes_trans : ∀ (a b c : JVal), leNotes a b → leNotes b c → leNotes a c := by
  intro a b c hab hbc
  simp only [leNotes, Bool.or_eq_true, Bool.and_eq_true, decide_eq_true_eq] at hab hbc ⊢
  rcases hab with h | ⟨e1, l1⟩ <;> rcases hbc with h' | ⟨e2, l2⟩
  · exact Or.inl (lt_trans h' h)
  · exact Or.inl (by omega)
  · exact Or.inl (by omega)
  · exact Or.inr ⟨e1.trans e2, localeCmp_trans l1 l2⟩

theorem leNotes_total : ∀ (a b : JVal), leNotes a b || leNotes b a := by
  intro a b
  simp only [leNotes, Bool.or_eq_true, Bool.and_eq_true, decide_eq_true_eq]
  rcases lt_trichotomy (effTimeVal a) (effTimeVal b) with h | h | h
  · exact Or.inr (Or.inl h)
  · rcases localeCmp_total (titleStr a) (titleStr b) with ht | ht
    · exact Or.inl (Or.inr ⟨h, ht⟩)
    · exact Or.inr (Or.inr ⟨h.symm, ht⟩)
  · exact Or.inl (Or.inl h)

theorem cmpNotes_le_iff_leNotes {a b : JVal}
    (ha : (dateGetTime (effTimeArg a)).isSome = true)
    (hb : (dateGetTime (effTimeArg b)).isSome = true) :
    decide (cmpNotes a b ≤ 0) = leNotes a b := by
  obtain ⟨ta, hta⟩ := Option.isSome_iff_exists.mp ha
  obtain ⟨tb, htb⟩ := Option.isSome_iff_exists.mp hb
  have hva : effTimeVal a = ta := by simp [effTimeVal, hta]
  have hvb : effTimeVal b = tb := by simp [effTimeVal, htb]
  unfold cmpNotes leNotes
  rw [hta, htb, hva, hvb]
  by_cases hne : tb = ta
  · subst hne
    show decide ((if tb ≠ tb then tb - tb else localeCmp (titleStr a) (titleStr b)) ≤ 0)
        = (decide (tb < tb) || (decide (tb = tb) && decide (localeCmp (titleStr a) (titleStr b) ≤ 0)))
    simp
  · show decide ((if tb ≠ ta then tb - ta else localeCmp (titleStr a) (titleStr b)) ≤ 0)
        = (decide (tb < ta) || (decide (ta = tb) && decide (localeCmp (titleStr a) (titleStr b) ≤ 0)))
    rw [if_pos hne]
    have h1 : decide (ta = tb) = false := decide_eq_false (fun he => hne he.symm)
    rw [h1, Bool.false_and, Bool.or_false, decide_eq_decide]
    omega

theorem merge_congr {α : Type} {le le' : α → α → Bool} :
    ∀ {xs ys : List α}, (∀ a ∈ xs, ∀ b ∈ ys, le a b = le' a b) →
      List.merge xs ys le = List.merge xs ys le'
  | [], ys, _ => by simp
  | x :: xs, [], _ => by simp
  | x :: xs, y :: ys, h => by
    simp only [List.merge]
    rw [h x (by simp) y (by simp)]
    cases hxy : le' x y
    · simp only [Bool.false_eq_true, if_false, List.cons.injEq, true_and]
      exact merge_congr (fun a ha b hb => h a ha b (List.mem_cons_of_mem _ hb))
    · simp only [if_true, List.cons.injEq, true_and]
      exact merge_congr (fun a ha b hb => h a (List.mem_cons_of_mem _ ha) b hb)
termination_by xs ys => xs.length + ys.length

theorem mergeSort_congr {α : Type} {le le' : α → α → Bool} :
    ∀ (l : List α), (∀ a ∈ l, ∀ b ∈ l, le a b = le' a b) →
      l.mergeSort le = l.mergeSort le'
  | [], _ => by simp
  | [a], _ => by simp
  | a :: b :: xs, h => by
    have hl1 : (List.splitInTwo ⟨a :: b :: xs, rfl⟩).1.1.length < xs.length + 1 + 1 := by
      simp [List.splitInTwo_fst]
      omega
    have hl2 : (List.splitInTwo ⟨a :: b :: xs, rfl⟩).2.1.length < xs.length + 1 + 1 := by
      simp [List.splitInTwo_snd]
      omega
    have hs1 : ∀ x ∈ (List.splitInTwo ⟨a :: b :: xs, rfl⟩).1.1, x ∈ a :: b :: xs := by
      intro x hx
      rw [List.splitInTwo_fst] at hx
      exact List.mem_of_mem_take hx
    have hs2 : ∀ x ∈ (List.splitInTwo ⟨a :: b :: xs, rfl⟩).2.1, x ∈ a :: b :: xs := by
      intro x hx
      rw [List.splitInTwo_snd] at hx
      exact List.mem_of_mem_drop hx
    conv_lhs => rw [List.mergeSort]
    conv_rhs => rw [List.mergeSort]
    rw [mergeSort_congr (List.splitInTwo ⟨a :: b :: xs, rfl⟩).1.1
          (fun p hp q hq => h p (hs1 p hp) q (hs1 q hq)),
        mergeSort_congr (List.splitInTwo ⟨a :: b :: xs, rfl⟩).2.1
          (fun p hp q hq => h p (hs2 p hp) q (hs2 q hq))]
    exact merge_congr (fun p hp q hq =>
      h p (hs1 p (List.mem_mergeSort.mp hp)) q (hs2 q (List.mem_mergeSort.mp hq)))
termination_by l => l.length

/-- C1 (amended): over any collection whose effective timestamp arguments
parse as valid dates, the sorted view is a permutation of the collection
ordered by descending effective timestamp, where the effective timestamp
falls back from updatedAt to createdAt to epoch zero by truthiness (a
present but falsy updatedAt, such as 0 or an empty string, is skipped);
notes with equal effective timestamps are in ascending case-insensitive
title order. -/
theorem sortedNotes_spec (notes : List JVal)
    (hv : ∀ n ∈ notes, (dateGetTime (effTimeArg n)).isSome = true) :
    (sortedNotes notes).Perm notes ∧
    (sortedNotes notes).Pairwise (fun a b =>
      effTimeVal b < effTimeVal a ∨
        (effTimeVal a = effTimeVal b ∧ (titleStr a).toLower ≤ (titleStr b).toLower)) := by
  have hcongr : sortedNotes notes = notes.mergeSort leNotes := by
    unfold sortedNotes
    exact mergeSort_congr notes (fun a ha b hb => cmpNotes_le_iff_leNotes (hv a ha) (hv b hb))
  constructor
  · rw [hcongr]
    exact List.mergeSort_perm notes leNotes
  · rw [hcongr]
    have hs := List.sorted_mergeSort leNotes_trans leNotes_total notes
    refine hs.imp ?_
    intro a b hab
    simp only [leNotes, Bool.or_eq_true, Bool.and_eq_true, decide_eq_true_eq] at hab
    rcases hab with h | ⟨e, l⟩
    · exact Or.inl h
    · refine Or.inr ⟨e, ?_⟩
      rcases (localeCmp_le_zero_iff _ _).mp l with h' | ⟨e', _⟩
      · exact le_of_lt h'
      · exact le_of_eq e'

theorem sortedNotes_spec_witness :
    ((sortedNotes
        [.jobj [("id", .jnum 1), ("title", .jstr "a"), ("updatedAt", .jnum 50)],
         .jobj [("id", .jnum 2), ("title", .jstr "b"), ("createdAt", .jnum 100)]]).Perm
      [.jobj [("id", .jnum 1), ("title", .jstr "a"), ("updatedAt", .jnum 50)],
       .jobj [("id", .jnum 2), ("title", .jstr "b"), ("createdAt", .jnum 100)]]) ∧
    ((sortedNotes
        [.jobj [("id", .jnum 1), ("title", .jstr "a"), ("updatedAt", .jnum 50)],
         .jobj [("id", .jnum 2), ("title", .jstr "b"), ("createdAt", .jnum 100)]]).Pairwise
      (fun a b =>
        effTimeVal b < effTimeVal a ∨
          (effTimeVal a = effTimeVal b ∧ (titleStr a).toLower ≤ (titleStr b).toLower))) :=
  sortedNotes_spec
    [.jobj [("id", .jnum 1), ("title", .jstr "a"), ("updatedAt", .jnum 50)],
     .jobj [("id", .jnum 2), ("title", .jstr "b"), ("createdAt", .jnum 100)]]
    (by decide)

/-- C1 counterexample: the claim reads the effective timestamp with nullish
fallback (updatedAt when present, else createdAt, else epoch zero), but the
code falls back by truthiness. For a note with updatedAt 0 (present, non
null) and createdAt 100, the claim gives effective time 0 while the code
uses 100, so the code places it before a note with effective time 50 and
the sorted view violates the claimed descending order. -/
theorem sortedNotes_claim_counterexample :
    ¬ (sortedNotes
        [.jobj [("id", .jnum 1), ("title", .jstr "a"),
                ("createdAt", .jnum 100), ("updatedAt", .jnum 0)],
         .jobj [("id", .jnum 2), ("title", .jstr "b"), ("updatedAt", .jnum 50)]]).Pairwise
      (fun a b => claimNoteLe a b = true) := by
  have hpw : List.Pairwise (fun a b => decide (cmpNotes a b ≤ 0) = true)
      [JVal.jobj [("id", .jnum 1), ("title", .jstr "a"),
        ("createdAt", .jnum 100), ("updatedAt", .jnum 0)],
       JVal.jobj [("id", .jnum 2), ("title", .jstr "b"), ("updatedAt", .jnum 50)]] := by
    decide
  have hsort : sortedNotes
      [JVal.jobj [("id", .jnum 1), ("title", .jstr "a"),
        ("createdAt", .jnum 100), ("updatedAt", .jnum 0)],
       JVal.jobj [("id", .jnum 2), ("title", .jstr "b"), ("updatedAt", .jnum 50)]]
      = [JVal.jobj [("id", .jnum 1), ("title", .jstr "a"),
          ("createdAt", .jnum 100), ("updatedAt", .jnum 0)],
         JVal.jobj [("id", .jnum 2), ("title", .jstr "b"), ("updatedAt", .jnum 50)]] :=
    List.mergeSort_of_sorted hpw
  rw [hsort]
  decide
